import Mathlib

/-!
Verification of the Diesel concurrency runtime (header-only C library).

This file gives a shallow embedding of the parts of the source that the
claims concern:

* `common.h` — the abstract `ThreadPriority` enumeration (C enum with
  values LOW = 0, DEFAULT = 1, HIGH = 2).
* `platform/emulated/kthread.h` — the emulated cooperative scheduler:
  thread records, `YieldKThread`, `SleepKThread`, `SetKThreadPriority`,
  `DestroyKThread`, and the scheduling tick `KThreadTick`.
* `platform/unix/kthread.h` — the null-handle behaviour of `JoinKThread`
  and the allocation behaviour of `DestroyKThread`.
* `platform/unix/ksync.h` — the futex fast-path mutex and the pthread
  mutex, embedded as an interleaving transition system.
* `fiber.h` — the lock-free run queue (`PushFiber` / `PopFiber`), the
  fiber lifecycle operations (`CreateNewFiber`, `RunFiber`, `JoinFiber`)
  and the system lifecycle (`InitFiberSys`, `ShutdownFiberSys`).

Machine integers that can go negative (`int sleep_ticks`, the
`THREAD_PRIORITY_LOW - 1` sentinel, worker counts) are modelled as `Int`;
addresses and unsigned quantities as `Nat`.  Pointers that may be NULL are
`Option`.  Intrusive singly linked lists are modelled as Lean lists read
off from the head pointer.
-/

namespace Diesel

/-- ThreadPriority from common.h: LOW, DEFAULT, HIGH with C enum values
0, 1, 2. -/
inductive ThreadPriority where
  | low
  | default
  | high
deriving DecidableEq, Repr

/-- The numeric value of the C enum constant (LOW = 0, DEFAULT = 1,
HIGH = 2); the tick compares priorities numerically, starting from the
sentinel THREAD_PRIORITY_LOW - 1 = -1. -/
def ThreadPriority.toInt : ThreadPriority → Int
  | .low => 0
  | .default => 1
  | .high => 2

namespace Emulated

/-- KThreadState from platform/emulated/kthread.h. -/
inductive KThreadState where
  | ready
  | running
  | sleeping
  | done
deriving DecidableEq, Repr

/-- A worker function is modelled by the sequence of scheduler calls it
makes during one synchronous invocation: each call is either
`YieldKThread()` or `SleepKThread(ticks)`.  A worker that makes no such
call is the empty list (it just returns).  This captures exactly the
effect a worker body has on its own thread record, which is the only
scheduler state the claims about the tick depend on. -/
inductive WorkerCall where
  | yieldSelf
  | sleepSelf (ticks : Int)
deriving DecidableEq, Repr

/-- KThread from platform/emulated/kthread.h.  The `ctx` sub-struct is
inlined (`id` is ctx.ID, `user_data` is ctx.user_data, the latter as an
abstract numeric address).  The worker function pointer is modelled by
the calls the worker makes (see `WorkerCall`). -/
structure KThread where
  id : Nat
  user_data : Nat
  worker : List WorkerCall
  state : KThreadState
  sleep_ticks : Int
  exit_code : Int
  joined : Bool
  priority : ThreadPriority
deriving DecidableEq, Repr

instance : Inhabited KThread :=
  ⟨{ id := 0, user_data := 0, worker := [], state := .ready, sleep_ticks := 0,
     exit_code := 0, joined := false, priority := .default }⟩

/-- KThreadScheduler from platform/emulated/kthread.h: the process-wide
table of threads (no NULL entries are ever stored by the source, so the
table is a plain list) and the cursor of the currently running entry. -/
structure KThreadScheduler where
  threads : List KThread
  current_index : Nat
deriving DecidableEq, Repr

/-- YieldKThread, as it acts on the current thread's record: if the
current thread is RUNNING it is set back to READY, otherwise nothing
happens. -/
def YieldKThread (t : KThread) : KThread :=
  if t.state = .running then { t with state := .ready } else t

/-- SleepKThread, as it acts on the current thread's record: it stores
the tick count and sets the state to SLEEPING. -/
def SleepKThread (ticks : Int) (t : KThread) : KThread :=
  { t with sleep_ticks := ticks, state := .sleeping }

/-- One scheduler call made by a worker, applied to the calling thread's
record (during a tick the table cursor points at the invoked thread, so
both calls act on that record). -/
def applyCall (t : KThread) : WorkerCall → KThread
  | .yieldSelf => YieldKThread t
  | .sleepSelf n => SleepKThread n t

/-- Synchronous invocation of a thread's worker: the calls it makes are
applied to the thread's record in order. -/
def runWorker (t : KThread) : KThread :=
  t.worker.foldl applyCall t

/-- The per-entry sleep handling done by the tick's scan loop: a SLEEPING
entry has sleep_ticks decremented and becomes READY when the count drops
to zero or below; other entries are untouched. -/
def wakeStep (t : KThread) : KThread :=
  if t.state = .sleeping then
    let st := t.sleep_ticks - 1
    if st ≤ 0 then { t with sleep_ticks := st, state := .ready }
    else { t with sleep_ticks := st }
  else t

/-- The tick's single scan loop over the table, mirroring the C `for`
loop: each entry is first given its sleep update (`wakeStep`), then the
updated entry is compared against the best candidate so far
(`t->state == KTHREAD_READY && t->priority > best_prio`).  Arguments:
remaining entries, index of the first of them, best index so far
(`SIZE_MAX` is `none`), best priority so far.  Returns the updated table
segment and the final best index. -/
def scanFold : List KThread → Nat → Option Nat → Int → List KThread × Option Nat
  | [], _, best, _ => ([], best)
  | t :: rest, i, best, best_prio =>
    let t' := wakeStep t
    if t'.state = .ready ∧ best_prio < t'.priority.toInt then
      let r := scanFold rest (i + 1) (some i) t'.priority.toInt
      (t' :: r.1, r.2)
    else
      let r := scanFold rest (i + 1) best best_prio
      (t' :: r.1, r.2)

/-- The tick's trailing cleanup loop: every DONE entry that was not
joined is freed and compacted out of the table. -/
def cleanupPass (ts : List KThread) : List KThread :=
  ts.filter fun t => decide ¬(t.state = .done ∧ t.joined = false)

/-- KThreadTick from platform/emulated/kthread.h.  Empty table: no-op.
Otherwise: one scan pass (sleep updates plus best-READY selection with
sentinel priority −1); if a best entry was found it is marked RUNNING,
its worker is invoked synchronously, and afterwards a still-RUNNING
entry is set to READY, a non-SLEEPING entry to DONE; finally the cleanup
pass compacts out unjoined DONE entries. -/
def KThreadTick (s : KThreadScheduler) : KThreadScheduler :=
  if s.threads.isEmpty then s
  else
    match scanFold s.threads 0 none (-1) with
    | (ts2, none) => { s with threads := cleanupPass ts2 }
    | (ts2, some i) =>
      let t := ts2.getD i default
      let t1 := runWorker { t with state := .running }
      let t2 :=
        if t1.state = .running then { t1 with state := .ready }
        else if ¬(t1.state = .sleeping) then { t1 with state := .done }
        else t1
      { threads := cleanupPass (ts2.set i t2), current_index := i }

/-- The index the tick selects for execution (read off the same scan pass
that `KThreadTick` performs); `none` means the tick invokes no worker. -/
def tickSelected (s : KThreadScheduler) : Option Nat :=
  if s.threads.isEmpty then none else (scanFold s.threads 0 none (-1)).2

/-- The selection part of the tick's scan in isolation, over an
already-sleep-updated table segment: the C loop's
`best_index` / `best_prio` accumulator pair, with `none` for SIZE_MAX. -/
def bestFold : List KThread → Nat → Option Nat → Int → Option Nat
  | [], _, best, _ => best
  | t :: rest, i, best, best_prio =>
    if t.state = .ready ∧ best_prio < t.priority.toInt then
      bestFold rest (i + 1) (some i) t.priority.toInt
    else bestFold rest (i + 1) best best_prio

/-- Invariant of the scan's best-candidate accumulator over the already
scanned prefix `pre`: the candidate (when present) is a READY entry of
the prefix whose priority equals `best_prio`, every READY entry of the
prefix has priority at most `best_prio`, and every READY entry strictly
before the candidate has strictly smaller priority; with no candidate
the accumulator still holds the sentinel, which is negative. -/
structure BestInv (pre : List KThread) (best : Option Nat) (best_prio : Int) : Prop where
  none_neg : best = none → best_prio < 0
  some_lt : ∀ j, best = some j → j < pre.length
  some_ready : ∀ j, best = some j → (pre.getD j default).state = .ready
  some_prio : ∀ j, best = some j →
    (pre.getD j default).priority.toInt = best_prio
  some_first : ∀ j, best = some j → ∀ k, k < j →
    (pre.getD k default).state = .ready →
    (pre.getD k default).priority.toInt < best_prio
  all_le : ∀ k, k < pre.length → (pre.getD k default).state = .ready →
    (pre.getD k default).priority.toInt ≤ best_prio

/-- SetKThreadPriority from platform/emulated/kthread.h, acting on the
handle it is given (NULL handle: returns false, touches nothing). -/
def SetKThreadPriority (t : Option KThread) (p : ThreadPriority) :
    Bool × Option KThread :=
  match t with
  | none => (false, none)
  | some t => (true, some { t with priority := p })

/-- DestroyKThread from platform/emulated/kthread.h: a NULL handle
returns false; otherwise the entry is marked DONE and true is returned.
No memory is freed by this call. -/
def DestroyKThread (t : Option KThread) : Bool × Option KThread :=
  match t with
  | none => (false, none)
  | some t => (true, some { t with state := .done })

end Emulated

namespace Unix

/-- KThread from platform/unix/kthread.h, reduced to the flags the
claims depend on (the pthread handle, start mutex and condition variable
are OS objects with no further observable structure here). -/
structure KThread where
  started : Bool
  finished : Bool
deriving DecidableEq, Repr

/-- JoinKThread from platform/unix/kthread.h: a NULL handle returns -1
immediately; otherwise pthread_join is called (success modelled, the
error branch would also return -1) and 0 is returned.  The thread object
is not modified either way. -/
def JoinKThread (t : Option KThread) : Int × Option KThread :=
  match t with
  | none => (-1, none)
  | some u => (0, some u)

/-- A heap of live allocations, for tracking what DestroyKThread frees. -/
structure Heap where
  live : List Nat
deriving DecidableEq, Repr

/-- Freeing an address: it is removed from the live set; the flag records
whether this was a free of an address that was not live (a double free /
invalid free). -/
def freeAddr (h : Heap) (a : Nat) : Heap × Bool :=
  (⟨h.live.filter fun x => decide (x ≠ a)⟩, decide (a ∉ h.live))

/-- The two allocations owned by a unix KThread object: the KThread
struct itself and its separately allocated KThreadContext. -/
structure KThreadAlloc where
  addr : Nat
  ctx_addr : Nat
deriving DecidableEq, Repr

/-- DestroyKThread from platform/unix/kthread.h: a NULL handle returns
false; otherwise the call joins the thread, destroys the condition
variable and mutex, frees the context allocation and then the KThread
allocation, and returns true.  The result is (return value, heap after,
whether any free hit a non-live address). -/
def DestroyKThread (h : Heap) (t : Option KThreadAlloc) : Bool × Heap × Bool :=
  match t with
  | none => (false, h, false)
  | some t =>
    let r1 := freeAddr h t.ctx_addr
    let r2 := freeAddr r1.1 t.addr
    (true, r2.1, r1.2 || r2.2)

end Unix

/-! ### Fiber system (fiber.h) -/

namespace FiberSys

/-- Fiber from fiber.h with the FiberContext inlined: `id` is ctx.ID (an
address-derived identity), `user_data` is ctx.user_data, `worker` is the
worker function pointer, both opaque pointers modelled as numeric
addresses.  The intrusive `next` link is represented by the position of
the fiber's address in the run-queue list. -/
structure Fiber where
  id : Nat
  user_data : Nat
  worker : Nat
  priority : ThreadPriority
  finished : Bool
deriving DecidableEq, Repr

/-- The worker entry point handed to CreateKThread by InitFiberSys; the
source only ever passes FiberSchedulerLoop. -/
inductive KThreadEntryFn where
  | fiberSchedulerLoop
deriving DecidableEq, Repr

/-- One kernel thread of the worker pool, recording the entry point it
was created with (CreateKThread), the priority it was assigned
(SetKThreadPriority) and whether StartKThread was called on it. -/
structure PoolThread where
  entry : KThreadEntryFn
  priority : ThreadPriority
  started : Bool
deriving DecidableEq, Repr

/-- FiberSystem from fiber.h (the global g_fiber_system): the run-queue
head chain as the list of fiber addresses reachable from the head, the
worker pool, the worker count and the running flag. -/
structure FiberSystem where
  run_queue : List Nat
  workers : List PoolThread
  worker_count : Int
  running : Bool
deriving DecidableEq, Repr

/-- The fiber heap alongside the global system state: `fibers a` is the
Fiber object allocated at address `a`, if any. -/
structure FiberState where
  sys : FiberSystem
  fibers : Nat → Option Fiber

/-- PushFiber from fiber.h, in an uncontended execution: the node's next
is set to the current head and the head CAS succeeds first try, so the
chain read off the head gains the new address in front. -/
def PushFiber (f : Nat) (q : List Nat) : List Nat := f :: q

/-- PopFiber from fiber.h, in an uncontended execution: an empty queue
returns NULL and leaves the head NULL; otherwise the head CAS swaps the
head to the popped node's next and the old head is returned. -/
def PopFiber (q : List Nat) : Option Nat × List Nat :=
  match q with
  | [] => (none, [])
  | f :: rest => (some f, rest)

/-- RunFiber from fiber.h: a NULL pointer or a finished fiber is ignored;
otherwise the fiber is pushed onto the run queue.  (Dereferencing a
non-null handle with no live allocation is undefined behaviour in the
source; the model leaves the state unchanged in that unreachable case.) -/
def RunFiber (st : FiberState) (f : Option Nat) : FiberState :=
  match f with
  | none => st
  | some a =>
    match st.fibers a with
    | none => st
    | some fb =>
      if fb.finished then st
      else { st with sys := { st.sys with run_queue := PushFiber a st.sys.run_queue } }

/-- CreateNewFiber from fiber.h.  `alloc` is the result of
DIESEL_MEM_ALLOC: `none` is allocation failure (return NULL, touch
nothing); `some a` is a fresh object at address `a`.  On success the
fields are initialised (ctx.ID = the object's own address, ctx.user_data
= the argument, priority = THREAD_PRIORITY_DEFAULT, finished = false)
and the fiber is pushed onto the run queue before returning it. -/
def CreateNewFiber (st : FiberState) (alloc : Option Nat) (worker user_data : Nat) :
    Option Nat × FiberState :=
  match alloc with
  | none => (none, st)
  | some a =>
    let f : Fiber :=
      { id := a, user_data := user_data, worker := worker,
        priority := .default, finished := false }
    (some a,
      { sys := { st.sys with run_queue := PushFiber a st.sys.run_queue },
        fibers := fun x => if x = a then some f else st.fibers x })

/-- InitFiberSys from fiber.h: the worker count is the argument when
positive, else 4; a pool of that many kernel threads is allocated, each
created with entry point FiberSchedulerLoop, given the requested
priority via SetKThreadPriority and started via StartKThread; the run
queue is reset to NULL and the running flag set. -/
def InitFiberSys (st : FiberState) (worker_threads : Int) (priority : ThreadPriority) :
    FiberState :=
  let count : Int := if worker_threads > 0 then worker_threads else 4
  { st with
    sys :=
      { run_queue := [],
        workers := List.replicate count.toNat
          { entry := .fiberSchedulerLoop, priority := priority, started := true },
        worker_count := count,
        running := true } }

/-- ShutdownFiberSys from fiber.h: the running flag is cleared, every
pool thread is joined and destroyed and the pool array freed (workers
becomes empty), and the run-queue head is set to NULL.  The fiber heap
is untouched: nothing is popped, invoked or freed. -/
def ShutdownFiberSys (st : FiberState) : FiberState :=
  { st with sys := { st.sys with running := false, workers := [], run_queue := [] } }

/-- JoinFiber from fiber.h is the polling loop
`while (!f->finished) YieldFiber();`.  With no worker left to mutate the
fiber (the post-shutdown situation of claim C10) the flag is constant,
so the loop is modelled with explicit fuel: the result says whether the
join returned within that many polls. -/
def JoinFiberSpin (f : Fiber) : Nat → Bool
  | 0 => false
  | n + 1 => if f.finished then true else JoinFiberSpin f n

end FiberSys

/-! ### The mutex as an interleaving transition system
(platform/unix/ksync.h)

Each of `n` client threads runs
`for (k = 0; k < C; k++) { LockKMutex(m); counter++; UnlockKMutex(m); }`.
The mutex state word (`atomic_int state`, 0 = unlocked / 1 = locked) is
`lock_state`; the shared counter's non-atomic increment is split into
its read and its write.  A thread is at one of six program points. -/

namespace Mutex

/-- Program points of the increment loop around LockKMutex /
UnlockKMutex. -/
inductive MutexPC where
  | atLoop
  | tryAcquire
  | readCounter
  | writeCounter
  | releaseLock
  | finished
deriving DecidableEq, Repr

/-- Per-thread local state: program point, the register holding the read
counter value, and the number of completed loop iterations. -/
structure MutexThread where
  pc : MutexPC
  tmp : Nat
  rounds : Nat
deriving DecidableEq, Repr

/-- Shared state of the whole mutex experiment with `n` threads. -/
structure MutexSysState (n : Nat) where
  lock_state : Bool
  counter : Nat
  th : Fin n → MutexThread

/-- Replace thread i's local state. -/
def updTh {n : Nat} (s : MutexSysState n) (i : Fin n) (l : MutexThread) :
    MutexSysState n :=
  { s with th := Function.update s.th i l }

/-- Interleaving semantics of the futex-fast-path implementation
(LockKMutex / UnlockKMutex in platform/unix/ksync.h with
SYNC_USE_USERMODE_LOCKS).  Acquisition happens only through a successful
compare-and-swap of the state word from 0 to 1 (the fast path, and the
CAS after waking in the slow path, are the same transition); a failed
CAS or a futex_wait changes no shared state (`acquireFail`).  Unlock
stores 0 to the state word; the futex_wake is advisory and changes no
modelled state. -/
inductive FutexStep (n C : Nat) : MutexSysState n → MutexSysState n → Prop where
  | loopEnter (s : MutexSysState n) (i : Fin n)
      (h1 : (s.th i).pc = .atLoop) (h2 : (s.th i).rounds < C) :
      FutexStep n C s (updTh s i { s.th i with pc := .tryAcquire })
  | loopExit (s : MutexSysState n) (i : Fin n)
      (h1 : (s.th i).pc = .atLoop) (h2 : ¬ (s.th i).rounds < C) :
      FutexStep n C s (updTh s i { s.th i with pc := .finished })
  | acquireOk (s : MutexSysState n) (i : Fin n)
      (h1 : (s.th i).pc = .tryAcquire) (h2 : s.lock_state = false) :
      FutexStep n C s
        { updTh s i { s.th i with pc := .readCounter } with lock_state := true }
  | acquireFail (s : MutexSysState n) (i : Fin n)
      (h1 : (s.th i).pc = .tryAcquire) (h2 : s.lock_state = true) :
      FutexStep n C s s
  | readStep (s : MutexSysState n) (i : Fin n)
      (h1 : (s.th i).pc = .readCounter) :
      FutexStep n C s (updTh s i { s.th i with pc := .writeCounter, tmp := s.counter })
  | writeStep (s : MutexSysState n) (i : Fin n)
      (h1 : (s.th i).pc = .writeCounter) :
      FutexStep n C s
        { updTh s i { s.th i with pc := .releaseLock } with counter := (s.th i).tmp + 1 }
  | releaseStep (s : MutexSysState n) (i : Fin n)
      (h1 : (s.th i).pc = .releaseLock) :
      FutexStep n C s
        { updTh s i { s.th i with pc := .atLoop, rounds := (s.th i).rounds + 1 } with
          lock_state := false }

/-- Interleaving semantics of the native-OS-mutex implementation
(pthread_mutex_lock / pthread_mutex_unlock): identical, except that a
blocked locker takes no step at all instead of spinning, so there is no
`acquireFail` transition. -/
inductive NativeStep (n C : Nat) : MutexSysState n → MutexSysState n → Prop where
  | loopEnter (s : MutexSysState n) (i : Fin n)
      (h1 : (s.th i).pc = .atLoop) (h2 : (s.th i).rounds < C) :
      NativeStep n C s (updTh s i { s.th i with pc := .tryAcquire })
  | loopExit (s : MutexSysState n) (i : Fin n)
      (h1 : (s.th i).pc = .atLoop) (h2 : ¬ (s.th i).rounds < C) :
      NativeStep n C s (updTh s i { s.th i with pc := .finished })
  | acquireOk (s : MutexSysState n) (i : Fin n)
      (h1 : (s.th i).pc = .tryAcquire) (h2 : s.lock_state = false) :
      NativeStep n C s
        { updTh s i { s.th i with pc := .readCounter } with lock_state := true }
  | readStep (s : MutexSysState n) (i : Fin n)
      (h1 : (s.th i).pc = .readCounter) :
      NativeStep n C s (updTh s i { s.th i with pc := .writeCounter, tmp := s.counter })
  | writeStep (s : MutexSysState n) (i : Fin n)
      (h1 : (s.th i).pc = .writeCounter) :
      NativeStep n C s
        { updTh s i { s.th i with pc := .releaseLock } with counter := (s.th i).tmp + 1 }
  | releaseStep (s : MutexSysState n) (i : Fin n)
      (h1 : (s.th i).pc = .releaseLock) :
      NativeStep n C s
        { updTh s i { s.th i with pc := .atLoop, rounds := (s.th i).rounds + 1 } with
          lock_state := false }

/-- Initial state: mutex word 0 (InitKMutex), counter 0, every thread at
the top of its loop with no completed iterations. -/
def mutexInit (n : Nat) : MutexSysState n :=
  { lock_state := false, counter := 0, th := fun _ => ⟨.atLoop, 0, 0⟩ }

/-- A thread holds the mutex while it is between a successful acquire
and the completion of its unlock. -/
def holdsMutex (l : MutexThread) : Prop :=
  l.pc = .readCounter ∨ l.pc = .writeCounter ∨ l.pc = .releaseLock

instance : DecidablePred holdsMutex := fun l => by
  unfold holdsMutex; infer_instance

/-- The inductive invariant of the mutex experiment. -/
structure MutexInv {n : Nat} (C : Nat) (s : MutexSysState n) : Prop where
  holder_unique : ∀ i j, holdsMutex (s.th i) → holdsMutex (s.th j) → i = j
  lock_iff : s.lock_state = true ↔ ∃ i, holdsMutex (s.th i)
  rounds_le : ∀ i, (s.th i).rounds ≤ C
  done_rounds : ∀ i, (s.th i).pc = .finished → (s.th i).rounds = C
  active_lt : ∀ i, (s.th i).pc ≠ .atLoop → (s.th i).pc ≠ .finished →
    (s.th i).rounds < C
  tmp_write : ∀ i, (s.th i).pc = .writeCounter →
    (s.th i).tmp = ∑ j, (s.th j).rounds
  counter_no_rel : (∀ i, (s.th i).pc ≠ .releaseLock) →
    s.counter = ∑ j, (s.th j).rounds
  counter_rel : ∀ i, (s.th i).pc = .releaseLock →
    s.counter = (∑ j, (s.th j).rounds) + 1

/-- The single-thread, zero-iteration experiment after its one loopExit
step; the witness for the final-count theorem. -/
def mutexFinalState : MutexSysState 1 :=
  updTh (mutexInit 1) 0 { (mutexInit 1).th 0 with pc := .finished }

end Mutex

/-! ### Concrete states used by counterexamples and witnesses -/

/-- A single-entry table whose thread is READY, joined, DEFAULT priority,
with a worker that calls YieldKThread once and returns. -/
def exYieldThread : Emulated.KThread :=
  { id := 1, user_data := 0, worker := [.yieldSelf], state := .ready,
    sleep_ticks := 0, exit_code := 0, joined := true, priority := .default }

def exYieldSched : Emulated.KThreadScheduler :=
  { threads := [exYieldThread], current_index := 0 }

/-- The same table but the worker returns without making any call. -/
def exReturnSched : Emulated.KThreadScheduler :=
  { threads := [{ exYieldThread with worker := [] }], current_index := 0 }

/-- The same table but the worker calls SleepKThread(5). -/
def exSleepSched : Emulated.KThreadScheduler :=
  { threads := [{ exYieldThread with worker := [.sleepSelf 5] }], current_index := 0 }

/-- A SLEEPING high-priority entry one tick from waking. -/
def exWakeHigh : Emulated.KThread :=
  { id := 1, user_data := 0, worker := [], state := .sleeping,
    sleep_ticks := 1, exit_code := 0, joined := true, priority := .high }

/-- A READY low-priority entry. -/
def exReadyLow : Emulated.KThread :=
  { id := 2, user_data := 0, worker := [], state := .ready,
    sleep_ticks := 0, exit_code := 0, joined := true, priority := .low }

/-- Table for the C2 counterexample: the only READY entry at tick entry
is index 1, but index 0 wakes during the scan and outranks it. -/
def exC2Sched : Emulated.KThreadScheduler :=
  { threads := [exWakeHigh, exReadyLow], current_index := 0 }

/-- Table with no READY entry at tick entry at all; its single SLEEPING
entry wakes during the scan and is executed. -/
def exC2SleepOnly : Emulated.KThreadScheduler :=
  { threads := [exWakeHigh], current_index := 0 }

/-- Scheduler used by the C2 witness: one READY default-priority entry. -/
def exC2Witness : Emulated.KThreadScheduler :=
  { threads := [exReadyLow], current_index := 0 }

/-- An emulated thread that has finished and been joined (state DONE,
joined flag set), as left behind by JoinKThread plus a first
DestroyKThread. -/
def exJoinedDoneThread : Emulated.KThread :=
  { id := 3, user_data := 0, worker := [], state := .done,
    sleep_ticks := 0, exit_code := 0, joined := true, priority := .default }

/-- Unix heap holding a KThread allocation at 10 and its context at 11. -/
def exUnixHeap : Unix.Heap := ⟨[10, 11]⟩

def exUnixThreadAlloc : Unix.KThreadAlloc := { addr := 10, ctx_addr := 11 }

/-- An unfinished fiber at address 5. -/
def exFiber : FiberSys.Fiber :=
  { id := 5, user_data := 7, worker := 3, priority := .default, finished := false }

/-- A finished fiber at address 6. -/
def exFiberDone : FiberSys.Fiber :=
  { id := 6, user_data := 7, worker := 3, priority := .default, finished := true }

/-- A running fiber system whose run queue holds the unfinished fiber at
address 5; the heap also holds a finished fiber at address 6. -/
def exFiberState : FiberSys.FiberState :=
  { sys := { run_queue := [5], workers := [], worker_count := 4, running := true },
    fibers := fun a => if a = 5 then some exFiber
                       else if a = 6 then some exFiberDone else none }

/-! ## Theorems -/

theorem ThreadPriority.toInt_nonneg (p : ThreadPriority) : 0 ≤ p.toInt := by
  cases p <;> simp [ThreadPriority.toInt]

/-- Spinning on a constant unfinished flag never returns, whatever the
fuel. -/
theorem joinFiberSpin_never_returns (f : FiberSys.Fiber) (h : f.finished = false) :
    ∀ fuel, FiberSys.JoinFiberSpin f fuel = false := by
  intro fuel
  induction fuel with
  | zero => rfl
  | succ n ih => simp [FiberSys.JoinFiberSpin, h, ih]

/-- C1: the claim says a tick leaves the invoked entry Ready when its
worker voluntarily yielded, Done when it returned without yielding, and
Sleeping when it put itself to sleep.  Evaluating the tick shows the
code does the opposite on the first two cases: the worker that yields
once ends the tick DONE, the worker that plainly returns ends the tick
READY (and is re-run forever), and only the sleeping case matches. -/
theorem kthreadTick_yield_return_branches_swapped :
    ((Emulated.KThreadTick exYieldSched).threads.getD 0 default).state = .done ∧
    ((Emulated.KThreadTick exReturnSched).threads.getD 0 default).state = .ready ∧
    ((Emulated.KThreadTick exSleepSched).threads.getD 0 default).state = .sleeping := by
  decide

/-- C4: the run queue is a LIFO stack: a push immediately followed by a
pop (no interleaving) returns the pushed fiber and restores the previous
queue, and a pop from the empty queue returns NULL and leaves it empty. -/
theorem pushFiber_popFiber_lifo (q : List Nat) (f : Nat) :
    FiberSys.PopFiber (FiberSys.PushFiber f q) = (some f, q) ∧
    FiberSys.PopFiber [] = (none, ([] : List Nat)) :=
  ⟨rfl, rfl⟩

/-- C5: RunFiber re-enqueues a fiber exactly when the handle is non-null
and the fiber's finished flag is false; on a null handle or a finished
fiber it is a no-op that leaves the whole state (run queue and fiber
heap) unchanged. -/
theorem runFiber_enqueue_iff (st : FiberSys.FiberState) (a : Nat)
    (fb : FiberSys.Fiber) (h : st.fibers a = some fb) :
    FiberSys.RunFiber st none = st ∧
    (fb.finished = true → FiberSys.RunFiber st (some a) = st) ∧
    (fb.finished = false →
      FiberSys.RunFiber st (some a) =
        { st with sys := { st.sys with run_queue := a :: st.sys.run_queue } }) := by
  refine ⟨rfl, ?_, ?_⟩ <;> intro hf <;>
    simp [FiberSys.RunFiber, FiberSys.PushFiber, h, hf]

theorem runFiber_enqueue_iff_witness :
    exFiberState.fibers 5 = some exFiber ∧ exFiber.finished = false ∧
    FiberSys.RunFiber exFiberState (some 5) =
      { exFiberState with
        sys := { exFiberState.sys with run_queue := 5 :: exFiberState.sys.run_queue } } ∧
    FiberSys.RunFiber exFiberState (some 6) = exFiberState :=
  ⟨rfl, rfl, (runFiber_enqueue_iff exFiberState 5 exFiber rfl).2.2 rfl,
   (runFiber_enqueue_iff exFiberState 6 exFiberDone rfl).2.1 rfl⟩

/-- C6: CreateNewFiber returns NULL on allocation failure leaving the
state untouched; on success it returns the fiber allocated at address
`a`, whose ID is that address, whose user_data is the given pointer,
whose priority is DEFAULT and whose finished flag is false, pushed in
front of the run queue, with every other heap cell and the rest of the
system state unchanged. -/
theorem createNewFiber_spec (st : FiberSys.FiberState) (a worker user_data : Nat) :
    FiberSys.CreateNewFiber st none worker user_data = (none, st) ∧
    (FiberSys.CreateNewFiber st (some a) worker user_data).1 = some a ∧
    (FiberSys.CreateNewFiber st (some a) worker user_data).2.fibers a =
      some { id := a, user_data := user_data, worker := worker,
             priority := .default, finished := false } ∧
    (FiberSys.CreateNewFiber st (some a) worker user_data).2.sys.run_queue =
      a :: st.sys.run_queue ∧
    (∀ b, b ≠ a →
      (FiberSys.CreateNewFiber st (some a) worker user_data).2.fibers b = st.fibers b) ∧
    (FiberSys.CreateNewFiber st (some a) worker user_data).2.sys.workers =
      st.sys.workers ∧
    (FiberSys.CreateNewFiber st (some a) worker user_data).2.sys.running =
      st.sys.running := by
  refine ⟨rfl, rfl, ?_, rfl, ?_, rfl, rfl⟩
  · simp [FiberSys.CreateNewFiber]
  · intro b hb
    simp [FiberSys.CreateNewFiber, hb]

theorem createNewFiber_spec_witness :
    (FiberSys.CreateNewFiber exFiberState (some 9) 3 7).1 = some 9 ∧
    (FiberSys.CreateNewFiber exFiberState (some 9) 3 7).2.fibers 9 =
      some { id := 9, user_data := 7, worker := 3,
             priority := .default, finished := false } ∧
    (FiberSys.CreateNewFiber exFiberState (some 9) 3 7).2.fibers 5 =
      exFiberState.fibers 5 :=
  ⟨(createNewFiber_spec exFiberState 9 3 7).2.1,
   (createNewFiber_spec exFiberState 9 3 7).2.2.1,
   (createNewFiber_spec exFiberState 9 3 7).2.2.2.2.1 5 (by decide)⟩

/-- C7: InitFiberSys sets the worker count to the argument when
positive and to 4 otherwise, builds a pool of exactly that many kernel
threads, each created with the FiberSchedulerLoop entry point, assigned
the given priority and started, sets the running flag, and leaves the
run queue empty. -/
theorem initFiberSys_spec (st : FiberSys.FiberState) (w : Int) (p : ThreadPriority) :
    (FiberSys.InitFiberSys st w p).sys.worker_count = (if w > 0 then w else 4) ∧
    (FiberSys.InitFiberSys st w p).sys.workers =
      List.replicate (if w > 0 then w else 4).toNat
        { entry := .fiberSchedulerLoop, priority := p, started := true } ∧
    (FiberSys.InitFiberSys st w p).sys.workers.length =
      (if w > 0 then w else 4).toNat ∧
    (FiberSys.InitFiberSys st w p).sys.running = true ∧
    (FiberSys.InitFiberSys st w p).sys.run_queue = [] := by
  refine ⟨rfl, rfl, ?_, rfl, rfl⟩
  simp [FiberSys.InitFiberSys]

/-- C8 counterexample: on the emulated backend a second DestroyKThread
on an already-finished, joined thread returns true, not a failure
indicator; and on the unix backend the first DestroyKThread frees
cleanly while a second one on the same handle performs an invalid
(double) free. -/
theorem destroyKThread_second_call_cex :
    (Emulated.DestroyKThread (some exJoinedDoneThread)).1 = true ∧
    (Unix.DestroyKThread exUnixHeap (some exUnixThreadAlloc)).2.2 = false ∧
    (Unix.DestroyKThread
      (Unix.DestroyKThread exUnixHeap (some exUnixThreadAlloc)).2.1
      (some exUnixThreadAlloc)).2.2 = true := by
  decide

/-- C8 amended: on the emulated backend, DestroyKThread on a non-null
handle of an already-joined thread returns true (success, not failure)
and merely re-marks the entry DONE; no memory is freed, since the tick's
cleanup pass never removes a joined entry, so no double-free can occur
there.  (On the native unix backend a second Destroy of the same handle
is a double free, see the counterexample.) -/
theorem destroyKThread_emulated_second_call (t : Emulated.KThread)
    (h : t.joined = true) (ts : List Emulated.KThread)
    (hmem : { t with state := .done } ∈ ts) :
    Emulated.DestroyKThread (some t) = (true, some { t with state := .done }) ∧
    { t with state := .done } ∈ Emulated.cleanupPass ts := by
  refine ⟨rfl, ?_⟩
  exact List.mem_filter.mpr ⟨hmem, by simp [h]⟩

theorem destroyKThread_emulated_second_call_witness :
    Emulated.DestroyKThread (some exJoinedDoneThread) =
      (true, some { exJoinedDoneThread with state := .done }) ∧
    { exJoinedDoneThread with state := .done } ∈
      Emulated.cleanupPass [{ exJoinedDoneThread with state := .done }] :=
  destroyKThread_emulated_second_call exJoinedDoneThread rfl
    [{ exJoinedDoneThread with state := .done }] (by simp)

/-- C9: every thread operation given a NULL handle returns its failure
indicator (unix JoinKThread returns -1, emulated DestroyKThread and
SetKThreadPriority return false, unix DestroyKThread returns false and
frees nothing) and modifies no thread or scheduler state. -/
theorem null_handle_ops_fail_without_effect (p : ThreadPriority) (h : Unix.Heap) :
    Unix.JoinKThread none = (-1, none) ∧
    Emulated.DestroyKThread none = (false, none) ∧
    Emulated.SetKThreadPriority none p = (false, none) ∧
    Unix.DestroyKThread h none = (false, h, false) :=
  ⟨rfl, rfl, rfl, rfl⟩

/-- C10: ShutdownFiberSys only clears the running flag, tears down the
worker pool and resets the run-queue head to NULL; it neither executes
nor frees the fibers still linked in the queue: each such fiber is still
allocated afterwards with its finished flag still false, and a
subsequent JoinFiber on it polls forever. -/
theorem shutdownFiberSys_preserves_queued_fibers (st : FiberSys.FiberState)
    (a : Nat) (fb : FiberSys.Fiber) (h1 : st.fibers a = some fb)
    (h2 : fb.finished = false) (h3 : a ∈ st.sys.run_queue) :
    (FiberSys.ShutdownFiberSys st).sys.run_queue = [] ∧
    (FiberSys.ShutdownFiberSys st).fibers a = some fb ∧
    fb.finished = false ∧
    (FiberSys.ShutdownFiberSys st).sys.running = false ∧
    ∀ fuel, FiberSys.JoinFiberSpin fb fuel = false :=
  ⟨rfl, h1, h2, rfl, joinFiberSpin_never_returns fb h2⟩

theorem shutdownFiberSys_preserves_queued_fibers_witness :
    (FiberSys.ShutdownFiberSys exFiberState).sys.run_queue = [] ∧
    (FiberSys.ShutdownFiberSys exFiberState).fibers 5 = some exFiber ∧
    FiberSys.JoinFiberSpin exFiber 3 = false :=
  ⟨(shutdownFiberSys_preserves_queued_fibers exFiberState 5 exFiber rfl rfl
      (by decide)).1,
   (shutdownFiberSys_preserves_queued_fibers exFiberState 5 exFiber rfl rfl
      (by decide)).2.1,
   (shutdownFiberSys_preserves_queued_fibers exFiberState 5 exFiber rfl rfl
      (by decide)).2.2.2.2 3⟩

/-! ### Tick selection (claim C2) -/

theorem getD_append_lt (pre l : List Emulated.KThread) (k : Nat)
    (h : k < pre.length) : (pre ++ l).getD k default = pre.getD k default :=
  List.getD_append _ _ _ _ h

theorem getD_at_length (pre : List Emulated.KThread) (t : Emulated.KThread)
    (l : List Emulated.KThread) : (pre ++ t :: l).getD pre.length default = t := by
  rw [List.getD_append_right _ _ _ _ (le_refl pre.length)]
  simp

/-- The tick's single scan pass is the sleep update of every entry
followed by the selection fold over the updated entries (the selection
only ever reads entries the pass has already updated). -/
theorem scanFold_eq (ts : List Emulated.KThread) :
    ∀ (i : Nat) (best : Option Nat) (bp : Int),
    Emulated.scanFold ts i best bp =
      (ts.map Emulated.wakeStep,
       Emulated.bestFold (ts.map Emulated.wakeStep) i best bp) := by
  induction ts with
  | nil => intro i best bp; rfl
  | cons t rest ih =>
    intro i best bp
    by_cases h : (Emulated.wakeStep t).state = .ready ∧
        bp < (Emulated.wakeStep t).priority.toInt
    · simp only [Emulated.scanFold, Emulated.bestFold, List.map_cons, if_pos h, ih]
    · simp only [Emulated.scanFold, Emulated.bestFold, List.map_cons, if_neg h, ih]

theorem bestInv_nil_init : Emulated.BestInv [] none (-1) :=
  ⟨fun _ => by norm_num,
   fun _ hj => Option.noConfusion hj,
   fun _ hj => Option.noConfusion hj,
   fun _ hj => Option.noConfusion hj,
   fun _ hj => Option.noConfusion hj,
   fun k hk _ => absurd hk (Nat.not_lt_zero k)⟩

/-- The selection fold preserves the accumulator invariant. -/
theorem bestFold_inv (ts : List Emulated.KThread) :
    ∀ (pre : List Emulated.KThread) (best : Option Nat) (bp : Int),
    Emulated.BestInv pre best bp →
    ∃ bp2, Emulated.BestInv (pre ++ ts)
      (Emulated.bestFold ts pre.length best bp) bp2 := by
  induction ts with
  | nil =>
    intro pre best bp h
    exact ⟨bp, by simpa using h⟩
  | cons t rest ih =>
    intro pre best bp h
    by_cases hc : t.state = .ready ∧ bp < t.priority.toInt
    · have hinv' : Emulated.BestInv (pre ++ [t]) (some pre.length)
          t.priority.toInt := by
        refine ⟨fun hn => Option.noConfusion hn, ?_, ?_, ?_, ?_, ?_⟩
        · intro j hj
          injection hj with hj
          subst hj
          simp [List.length_append]
        · intro j hj
          injection hj with hj
          subst hj
          rw [getD_at_length]
          exact hc.1
        · intro j hj
          injection hj with hj
          subst hj
          rw [getD_at_length]
        · intro j hj k hk hkr
          injection hj with hj
          subst hj
          rw [getD_append_lt _ _ _ hk] at hkr ⊢
          exact lt_of_le_of_lt (h.all_le k hk hkr) hc.2
        · intro k hk hkr
          have hk2 : k < pre.length + 1 := by
            simpa [List.length_append] using hk
          rcases Nat.lt_succ_iff_lt_or_eq.1 hk2 with hk' | hk'
          · rw [getD_append_lt _ _ _ hk'] at hkr ⊢
            exact le_of_lt (lt_of_le_of_lt (h.all_le k hk' hkr) hc.2)
          · subst hk'
            rw [getD_at_length]
      have h2 := ih (pre ++ [t]) (some pre.length) t.priority.toInt hinv'
      simp only [List.append_assoc, List.singleton_append, List.length_append,
        List.length_singleton] at h2
      simp only [Emulated.bestFold, if_pos hc]
      exact h2
    · have hnr : t.state = .ready → t.priority.toInt ≤ bp := by
        intro hr
        by_contra hlt
        exact hc ⟨hr, not_le.1 hlt⟩
      have hinv' : Emulated.BestInv (pre ++ [t]) best bp := by
        refine ⟨h.none_neg, ?_, ?_, ?_, ?_, ?_⟩
        · intro j hj
          have := h.some_lt j hj
          simp only [List.length_append, List.length_singleton]
          omega
        · intro j hj
          rw [getD_append_lt _ _ _ (h.some_lt j hj)]
          exact h.some_ready j hj
        · intro j hj
          rw [getD_append_lt _ _ _ (h.some_lt j hj)]
          exact h.some_prio j hj
        · intro j hj k hk hkr
          have hk' : k < pre.length := lt_trans hk (h.some_lt j hj)
          rw [getD_append_lt _ _ _ hk'] at hkr ⊢
          exact h.some_first j hj k hk hkr
        · intro k hk hkr
          have hk2 : k < pre.length + 1 := by
            simpa [List.length_append] using hk
          rcases Nat.lt_succ_iff_lt_or_eq.1 hk2 with hk' | hk'
          · rw [getD_append_lt _ _ _ hk'] at hkr ⊢
            exact h.all_le k hk' hkr
          · subst hk'
            rw [getD_at_length] at hkr ⊢
            exact hnr hkr
      have h2 := ih (pre ++ [t]) best bp hinv'
      simp only [List.append_assoc, List.singleton_append, List.length_append,
        List.length_singleton] at h2
      simp only [Emulated.bestFold, if_neg hc]
      exact h2

/-- The tick's selected index is the selection fold over the sleep
updated table (empty table included). -/
theorem tickSelected_eq (s : Emulated.KThreadScheduler) :
    Emulated.tickSelected s =
      Emulated.bestFold (s.threads.map Emulated.wakeStep) 0 none (-1) := by
  unfold Emulated.tickSelected
  by_cases h : s.threads.isEmpty
  · rw [if_pos h]
    have he : s.threads = [] := List.isEmpty_iff.mp h
    rw [he]
    rfl
  · rw [if_neg h, scanFold_eq s.threads 0 none (-1)]

/-- C2 amended: read "Ready" after the tick's sleep-decrement phase.  If
the tick selects index j, then j is (post-wake) Ready with maximal
priority among the post-wake Ready entries, and strictly outranks every
post-wake Ready entry at a lower index (ties go to the lowest index);
if the tick selects nothing then no entry is Ready after the wake phase
and no worker is invoked — the tick is exactly the wake phase followed
by the cleanup pass. -/
theorem kthreadTick_selects_post_wake_best (s : Emulated.KThreadScheduler) :
    (∀ j, Emulated.tickSelected s = some j →
      j < s.threads.length ∧
      ((s.threads.map Emulated.wakeStep).getD j default).state = .ready ∧
      (∀ k, k < s.threads.length →
        ((s.threads.map Emulated.wakeStep).getD k default).state = .ready →
        ((s.threads.map Emulated.wakeStep).getD k default).priority.toInt ≤
          ((s.threads.map Emulated.wakeStep).getD j default).priority.toInt) ∧
      (∀ k, k < j →
        ((s.threads.map Emulated.wakeStep).getD k default).state = .ready →
        ((s.threads.map Emulated.wakeStep).getD k default).priority.toInt <
          ((s.threads.map Emulated.wakeStep).getD j default).priority.toInt)) ∧
    (Emulated.tickSelected s = none →
      (∀ k, k < s.threads.length →
        ((s.threads.map Emulated.wakeStep).getD k default).state ≠ .ready) ∧
      Emulated.KThreadTick s =
        { s with threads := Emulated.cleanupPass (s.threads.map Emulated.wakeStep) }) := by
  obtain ⟨bp2, hinv⟩ :=
    bestFold_inv (s.threads.map Emulated.wakeStep) [] none (-1) bestInv_nil_init
  simp only [List.nil_append, List.length_nil] at hinv
  constructor
  · intro j hj
    rw [tickSelected_eq] at hj
    have hlt := hinv.some_lt j hj
    rw [List.length_map] at hlt
    refine ⟨hlt, hinv.some_ready j hj, ?_, ?_⟩
    · intro k hk hkr
      rw [hinv.some_prio j hj]
      exact hinv.all_le k (by rw [List.length_map]; exact hk) hkr
    · intro k hk hkr
      rw [hinv.some_prio j hj]
      exact hinv.some_first j hj k hk hkr
  · intro hnone
    rw [tickSelected_eq] at hnone
    constructor
    · intro k hk hkr
      have h1 := hinv.all_le k (by rw [List.length_map]; exact hk) hkr
      have h2 := hinv.none_neg hnone
      have h3 := ThreadPriority.toInt_nonneg
        ((s.threads.map Emulated.wakeStep).getD k default).priority
      omega
    · unfold Emulated.KThreadTick
      by_cases he : s.threads.isEmpty
      · rw [if_pos he]
        obtain ⟨ts, ci⟩ := s
        have he2 : ts = [] := List.isEmpty_iff.mp he
        subst he2
        rfl
      · rw [if_neg he, scanFold_eq s.threads 0 none (-1), hnone]

theorem kthreadTick_selects_post_wake_best_witness :
    Emulated.tickSelected exC2Witness = some 0 ∧
    ((exC2Witness.threads.map Emulated.wakeStep).getD 0 default).state = .ready ∧
    0 < exC2Witness.threads.length :=
  ⟨by decide,
   ((kthreadTick_selects_post_wake_best exC2Witness).1 0 (by decide)).2.1,
   ((kthreadTick_selects_post_wake_best exC2Witness).1 0 (by decide)).1⟩

/-- C2 counterexample, reading "Ready" as at tick entry, as the claim's
quantification over table states does: in `exC2Sched` the only entry
that is Ready at tick entry is index 1, yet the tick selects index 0 (a
Sleeping entry that wakes during the very scan that selects); and in
`exC2SleepOnly` no entry at all is Ready at tick entry, yet the tick
still selects (and hence invokes) index 0 rather than invoking no
worker. -/
theorem kthreadTick_pre_ready_cex :
    (exC2Sched.threads.getD 0 default).state ≠ .ready ∧
    (exC2Sched.threads.getD 1 default).state = .ready ∧
    Emulated.tickSelected exC2Sched = some 0 ∧
    (exC2SleepOnly.threads.getD 0 default).state ≠ .ready ∧
    exC2SleepOnly.threads.length = 1 ∧
    Emulated.tickSelected exC2SleepOnly = some 0 := by
  decide

/-! ### Mutex mutual exclusion (claim C3) -/

theorem update_rounds_comm {n : Nat} (f : Fin n → Mutex.MutexThread) (i : Fin n)
    (l : Mutex.MutexThread) :
    (fun j => (Function.update f i l j).rounds) =
      Function.update (fun j => (f j).rounds) i l.rounds := by
  funext j
  by_cases h : j = i
  · subst h; simp
  · simp [Function.update_noteq h]

theorem sum_rounds_update {n : Nat} (f : Fin n → Mutex.MutexThread) (i : Fin n)
    (l : Mutex.MutexThread) :
    (∑ j, (Function.update f i l j).rounds) =
      l.rounds + ∑ j ∈ Finset.univ \ {i}, (f j).rounds := by
  calc (∑ j, (Function.update f i l j).rounds)
      = ∑ j, Function.update (fun k => (f k).rounds) i l.rounds j :=
        Finset.sum_congr rfl fun j _ => congrFun (update_rounds_comm f i l) j
    _ = l.rounds + ∑ j ∈ Finset.univ \ {i}, (f j).rounds :=
        Finset.sum_update_of_mem (Finset.mem_univ i) _ _

theorem sum_rounds_split {n : Nat} (f : Fin n → Mutex.MutexThread) (i : Fin n) :
    (∑ j, (f j).rounds) = (f i).rounds + ∑ j ∈ Finset.univ \ {i}, (f j).rounds := by
  have h := sum_rounds_update f i (f i)
  rwa [Function.update_eq_self] at h

theorem sum_rounds_update_eq {n : Nat} (f : Fin n → Mutex.MutexThread) (i : Fin n)
    (l : Mutex.MutexThread) (hl : l.rounds = (f i).rounds) :
    (∑ j, (Function.update f i l j).rounds) = ∑ j, (f j).rounds := by
  rw [sum_rounds_update, hl, ← sum_rounds_split]

theorem sum_rounds_update_succ {n : Nat} (f : Fin n → Mutex.MutexThread) (i : Fin n)
    (l : Mutex.MutexThread) (hl : l.rounds = (f i).rounds + 1) :
    (∑ j, (Function.update f i l j).rounds) = (∑ j, (f j).rounds) + 1 := by
  rw [sum_rounds_update, hl, sum_rounds_split f i]
  omega

/-- Updating a non-holder slot to another non-holder state does not
change who holds the mutex. -/
theorem holds_set_iff {n : Nat} (f : Fin n → Mutex.MutexThread) (i : Fin n)
    (l : Mutex.MutexThread) (hnew : ¬ Mutex.holdsMutex l)
    (hold : ¬ Mutex.holdsMutex (f i)) :
    ∀ j, Mutex.holdsMutex (Function.update f i l j) ↔ Mutex.holdsMutex (f j) := by
  intro j
  by_cases h : j = i
  · subst h; simp [hnew, hold]
  · simp [Function.update_noteq h]

/-- Moving the holder between two holding program points does not change
who holds the mutex. -/
theorem holds_pres_iff {n : Nat} (f : Fin n → Mutex.MutexThread) (i : Fin n)
    (l : Mutex.MutexThread) (hnew : Mutex.holdsMutex l)
    (hold : Mutex.holdsMutex (f i)) :
    ∀ j, Mutex.holdsMutex (Function.update f i l j) ↔ Mutex.holdsMutex (f j) := by
  intro j
  by_cases h : j = i
  · subst h; simp [hnew, hold]
  · simp [Function.update_noteq h]

theorem mutexInv_init {n : Nat} (C : Nat) : Mutex.MutexInv C (Mutex.mutexInit n) := by
  refine ⟨?_, ?_, ?_, ?_, ?_, ?_, ?_, ?_⟩
  · intro i j hi _
    exact absurd hi (by simp [Mutex.mutexInit, Mutex.holdsMutex])
  · constructor
    · intro h
      exact absurd h (by simp [Mutex.mutexInit])
    · rintro ⟨i, hi⟩
      exact absurd hi (by simp [Mutex.mutexInit, Mutex.holdsMutex])
  · intro i; simp [Mutex.mutexInit]
  · intro i hi
    exact absurd hi (by simp [Mutex.mutexInit])
  · intro i hi
    have : ((Mutex.mutexInit n).th i).pc = .atLoop := by simp [Mutex.mutexInit]
    exact absurd this hi
  · intro i hi
    exact absurd hi (by simp [Mutex.mutexInit])
  · intro _
    simp [Mutex.mutexInit]
  · intro i hi
    exact absurd hi (by simp [Mutex.mutexInit])

/-- Every step of the futex implementation preserves the invariant. -/
theorem futexStep_preserves_inv {n C : Nat} {s s' : Mutex.MutexSysState n}
    (h : Mutex.FutexStep n C s s') (hinv : Mutex.MutexInv C s) :
    Mutex.MutexInv C s' := by
  cases h with
  | loopEnter i h1 h2 =>
    have hA : ¬ Mutex.holdsMutex { s.th i with pc := Mutex.MutexPC.tryAcquire } := by
      simp [Mutex.holdsMutex]
    have hB : ¬ Mutex.holdsMutex (s.th i) := by
      simp [Mutex.holdsMutex, h1]
    have hsum : (∑ j, ((Function.update s.th i
        { s.th i with pc := Mutex.MutexPC.tryAcquire }) j).rounds) =
        ∑ j, (s.th j).rounds := sum_rounds_update_eq _ _ _ rfl
    refine ⟨?_, ?_, ?_, ?_, ?_, ?_, ?_, ?_⟩
    · dsimp only [Mutex.updTh]
      intro j k hj hk
      rw [holds_set_iff s.th i _ hA hB] at hj hk
      exact hinv.holder_unique j k hj hk
    · dsimp only [Mutex.updTh]
      simp only [holds_set_iff s.th i _ hA hB]
      exact hinv.lock_iff
    · dsimp only [Mutex.updTh]
      intro j
      by_cases hji : j = i
      · subst hji
        rw [Function.update_same]
        exact hinv.rounds_le j
      · rw [Function.update_noteq hji]
        exact hinv.rounds_le j
    · dsimp only [Mutex.updTh]
      intro j hj
      by_cases hji : j = i
      · subst hji
        rw [Function.update_same] at hj
        simp at hj
      · rw [Function.update_noteq hji] at hj ⊢
        exact hinv.done_rounds j hj
    · dsimp only [Mutex.updTh]
      intro j hj1 hj2
      by_cases hji : j = i
      · subst hji
        rw [Function.update_same]
        exact h2
      · rw [Function.update_noteq hji] at hj1 hj2 ⊢
        exact hinv.active_lt j hj1 hj2
    · dsimp only [Mutex.updTh]
      intro j hj
      by_cases hji : j = i
      · subst hji
        rw [Function.update_same] at hj
        simp at hj
      · rw [Function.update_noteq hji] at hj
        rw [Function.update_noteq hji, hsum]
        exact hinv.tmp_write j hj
    · dsimp only [Mutex.updTh]
      intro hno
      rw [hsum]
      refine hinv.counter_no_rel fun j => ?_
      have hx := hno j
      by_cases hji : j = i
      · subst hji
        rw [h1]
        simp
      · rwa [Function.update_noteq hji] at hx
    · dsimp only [Mutex.updTh]
      intro j hj
      by_cases hji : j = i
      · subst hji
        rw [Function.update_same] at hj
        simp at hj
      · rw [Function.update_noteq hji] at hj
        rw [hsum]
        exact hinv.counter_rel j hj
  | loopExit i h1 h2 =>
    have hA : ¬ Mutex.holdsMutex { s.th i with pc := Mutex.MutexPC.finished } := by
      simp [Mutex.holdsMutex]
    have hB : ¬ Mutex.holdsMutex (s.th i) := by
      simp [Mutex.holdsMutex, h1]
    have hsum : (∑ j, ((Function.update s.th i
        { s.th i with pc := Mutex.MutexPC.finished }) j).rounds) =
        ∑ j, (s.th j).rounds := sum_rounds_update_eq _ _ _ rfl
    refine ⟨?_, ?_, ?_, ?_, ?_, ?_, ?_, ?_⟩
    · dsimp only [Mutex.updTh]
      intro j k hj hk
      rw [holds_set_iff s.th i _ hA hB] at hj hk
      exact hinv.holder_unique j k hj hk
    · dsimp only [Mutex.updTh]
      simp only [holds_set_iff s.th i _ hA hB]
      exact hinv.lock_iff
    · dsimp only [Mutex.updTh]
      intro j
      by_cases hji : j = i
      · subst hji
        rw [Function.update_same]
        show (s.th j).rounds ≤ C
        exact hinv.rounds_le j
      · rw [Function.update_noteq hji]
        exact hinv.rounds_le j
    · dsimp only [Mutex.updTh]
      intro j hj
      by_cases hji : j = i
      · subst hji
        rw [Function.update_same]
        show (s.th j).rounds = C
        have := hinv.rounds_le j
        omega
      · rw [Function.update_noteq hji] at hj ⊢
        exact hinv.done_rounds j hj
    · dsimp only [Mutex.updTh]
      intro j hj1 hj2
      by_cases hji : j = i
      · subst hji
        rw [Function.update_same] at hj2
        exact absurd rfl hj2
      · rw [Function.update_noteq hji] at hj1 hj2 ⊢
        exact hinv.active_lt j hj1 hj2
    · dsimp only [Mutex.updTh]
      intro j hj
      by_cases hji : j = i
      · subst hji
        rw [Function.update_same] at hj
        simp at hj
      · rw [Function.update_noteq hji] at hj
        rw [Function.update_noteq hji, hsum]
        exact hinv.tmp_write j hj
    · dsimp only [Mutex.updTh]
      intro hno
      rw [hsum]
      refine hinv.counter_no_rel fun j => ?_
      have hx := hno j
      by_cases hji : j = i
      · subst hji
        rw [h1]
        simp
      · rwa [Function.update_noteq hji] at hx
    · dsimp only [Mutex.updTh]
      intro j hj
      by_cases hji : j = i
      · subst hji
        rw [Function.update_same] at hj
        simp at hj
      · rw [Function.update_noteq hji] at hj
        rw [hsum]
        exact hinv.counter_rel j hj
  | acquireOk i h1 h2 =>
    have hno : ∀ j, ¬ Mutex.holdsMutex (s.th j) := by
      intro j hj
      have hl := hinv.lock_iff.mpr ⟨j, hj⟩
      rw [h2] at hl
      exact Bool.noConfusion hl
    have hsum : (∑ j, ((Function.update s.th i
        { s.th i with pc := Mutex.MutexPC.readCounter }) j).rounds) =
        ∑ j, (s.th j).rounds := sum_rounds_update_eq _ _ _ rfl
    have heqi : ∀ j, Mutex.holdsMutex (Function.update s.th i
        { s.th i with pc := Mutex.MutexPC.readCounter } j) → j = i := by
      intro j hj
      by_cases hji : j = i
      · exact hji
      · rw [Function.update_noteq hji] at hj
        exact absurd hj (hno j)
    have hlt : (s.th i).rounds < C :=
      hinv.active_lt i (by rw [h1]; simp) (by rw [h1]; simp)
    refine ⟨?_, ?_, ?_, ?_, ?_, ?_, ?_, ?_⟩
    · dsimp only [Mutex.updTh]
      intro j k hj hk
      rw [heqi j hj, heqi k hk]
    · dsimp only [Mutex.updTh]
      constructor
      · intro _
        refine ⟨i, ?_⟩
        rw [Function.update_same]
        exact Or.inl rfl
      · intro _
        rfl
    · dsimp only [Mutex.updTh]
      intro j
      by_cases hji : j = i
      · subst hji
        rw [Function.update_same]
        exact hinv.rounds_le j
      · rw [Function.update_noteq hji]
        exact hinv.rounds_le j
    · dsimp only [Mutex.updTh]
      intro j hj
      by_cases hji : j = i
      · subst hji
        rw [Function.update_same] at hj
        simp at hj
      · rw [Function.update_noteq hji] at hj ⊢
        exact hinv.done_rounds j hj
    · dsimp only [Mutex.updTh]
      intro j hj1 hj2
      by_cases hji : j = i
      · subst hji
        rw [Function.update_same]
        exact hlt
      · rw [Function.update_noteq hji] at hj1 hj2 ⊢
        exact hinv.active_lt j hj1 hj2
    · dsimp only [Mutex.updTh]
      intro j hj
      by_cases hji : j = i
      · subst hji
        rw [Function.update_same] at hj
        simp at hj
      · rw [Function.update_noteq hji] at hj
        rw [Function.update_noteq hji, hsum]
        exact hinv.tmp_write j hj
    · dsimp only [Mutex.updTh]
      intro hno2
      rw [hsum]
      refine hinv.counter_no_rel fun j => ?_
      have hx := hno2 j
      by_cases hji : j = i
      · subst hji
        rw [h1]
        simp
      · rwa [Function.update_noteq hji] at hx
    · dsimp only [Mutex.updTh]
      intro j hj
      by_cases hji : j = i
      · subst hji
        rw [Function.update_same] at hj
        simp at hj
      · rw [Function.update_noteq hji] at hj
        rw [hsum]
        exact hinv.counter_rel j hj
  | acquireFail i h1 h2 =>
    exact hinv
  | readStep i h1 =>
    have hA : Mutex.holdsMutex
        { s.th i with pc := Mutex.MutexPC.writeCounter, tmp := s.counter } :=
      Or.inr (Or.inl rfl)
    have hB : Mutex.holdsMutex (s.th i) := Or.inl h1
    have hsum : (∑ j, ((Function.update s.th i
        { s.th i with pc := Mutex.MutexPC.writeCounter, tmp := s.counter }) j).rounds) =
        ∑ j, (s.th j).rounds := sum_rounds_update_eq _ _ _ rfl
    have hnorel : ∀ j, (s.th j).pc ≠ Mutex.MutexPC.releaseLock := by
      intro j hj
      have hji : j = i := hinv.holder_unique j i (Or.inr (Or.inr hj)) hB
      rw [hji, h1] at hj
      exact Mutex.MutexPC.noConfusion hj
    have hcnt : s.counter = ∑ j, (s.th j).rounds := hinv.counter_no_rel hnorel
    have hlt : (s.th i).rounds < C :=
      hinv.active_lt i (by rw [h1]; simp) (by rw [h1]; simp)
    refine ⟨?_, ?_, ?_, ?_, ?_, ?_, ?_, ?_⟩
    · dsimp only [Mutex.updTh]
      intro j k hj hk
      rw [holds_pres_iff s.th i _ hA hB] at hj hk
      exact hinv.holder_unique j k hj hk
    · dsimp only [Mutex.updTh]
      simp only [holds_pres_iff s.th i _ hA hB]
      exact hinv.lock_iff
    · dsimp only [Mutex.updTh]
      intro j
      by_cases hji : j = i
      · subst hji
        rw [Function.update_same]
        exact hinv.rounds_le j
      · rw [Function.update_noteq hji]
        exact hinv.rounds_le j
    · dsimp only [Mutex.updTh]
      intro j hj
      by_cases hji : j = i
      · subst hji
        rw [Function.update_same] at hj
        simp at hj
      · rw [Function.update_noteq hji] at hj ⊢
        exact hinv.done_rounds j hj
    · dsimp only [Mutex.updTh]
      intro j hj1 hj2
      by_cases hji : j = i
      · subst hji
        rw [Function.update_same]
        exact hlt
      · rw [Function.update_noteq hji] at hj1 hj2 ⊢
        exact hinv.active_lt j hj1 hj2
    · dsimp only [Mutex.updTh]
      intro j hj
      by_cases hji : j = i
      · subst hji
        rw [Function.update_same]
        show s.counter = ∑ k, ((Function.update s.th j
          { s.th j with pc := Mutex.MutexPC.writeCounter, tmp := s.counter }) k).rounds
        rw [hsum]
        exact hcnt
      · rw [Function.update_noteq hji] at hj
        rw [Function.update_noteq hji, hsum]
        exact hinv.tmp_write j hj
    · dsimp only [Mutex.updTh]
      intro _
      rw [hsum]
      exact hcnt
    · dsimp only [Mutex.updTh]
      intro j hj
      by_cases hji : j = i
      · subst hji
        rw [Function.update_same] at hj
        simp at hj
      · rw [Function.update_noteq hji] at hj
        exact absurd hj (hnorel j)
  | writeStep i h1 =>
    have hA : Mutex.holdsMutex { s.th i with pc := Mutex.MutexPC.releaseLock } :=
      Or.inr (Or.inr rfl)
    have hB : Mutex.holdsMutex (s.th i) := Or.inr (Or.inl h1)
    have hsum : (∑ j, ((Function.update s.th i
        { s.th i with pc := Mutex.MutexPC.releaseLock }) j).rounds) =
        ∑ j, (s.th j).rounds := sum_rounds_update_eq _ _ _ rfl
    have htmp : (s.th i).tmp = ∑ j, (s.th j).rounds := hinv.tmp_write i h1
    have hlt : (s.th i).rounds < C :=
      hinv.active_lt i (by rw [h1]; simp) (by rw [h1]; simp)
    refine ⟨?_, ?_, ?_, ?_, ?_, ?_, ?_, ?_⟩
    · dsimp only [Mutex.updTh]
      intro j k hj hk
      rw [holds_pres_iff s.th i _ hA hB] at hj hk
      exact hinv.holder_unique j k hj hk
    · dsimp only [Mutex.updTh]
      simp only [holds_pres_iff s.th i _ hA hB]
      exact hinv.lock_iff
    · dsimp only [Mutex.updTh]
      intro j
      by_cases hji : j = i
      · subst hji
        rw [Function.update_same]
        exact hinv.rounds_le j
      · rw [Function.update_noteq hji]
        exact hinv.rounds_le j
    · dsimp only [Mutex.updTh]
      intro j hj
      by_cases hji : j = i
      · subst hji
        rw [Function.update_same] at hj
        simp at hj
      · rw [Function.update_noteq hji] at hj ⊢
        exact hinv.done_rounds j hj
    · dsimp only [Mutex.updTh]
      intro j hj1 hj2
      by_cases hji : j = i
      · subst hji
        rw [Function.update_same]
        exact hlt
      · rw [Function.update_noteq hji] at hj1 hj2 ⊢
        exact hinv.active_lt j hj1 hj2
    · dsimp only [Mutex.updTh]
      intro j hj
      by_cases hji : j = i
      · subst hji
        rw [Function.update_same] at hj
        simp at hj
      · rw [Function.update_noteq hji] at hj
        have hji2 : j = i := hinv.holder_unique j i (Or.inr (Or.inl hj)) hB
        exact absurd hji2 hji
    · dsimp only [Mutex.updTh]
      intro hno2
      have hx := hno2 i
      rw [Function.update_same] at hx
      simp at hx
    · dsimp only [Mutex.updTh]
      intro j hj
      show (s.th i).tmp + 1 = (∑ k, ((Function.update s.th i
        { s.th i with pc := Mutex.MutexPC.releaseLock }) k).rounds) + 1
      rw [hsum, htmp]
  | releaseStep i h1 =>
    have hB : Mutex.holdsMutex (s.th i) := Or.inr (Or.inr h1)
    have hOnly : ∀ j, Mutex.holdsMutex (s.th j) → j = i := fun j hj =>
      hinv.holder_unique j i hj hB
    have hNoNew : ∀ j, ¬ Mutex.holdsMutex (Function.update s.th i
        { s.th i with
            pc := Mutex.MutexPC.atLoop
            rounds := (s.th i).rounds + 1 } j) := by
      intro j hj
      by_cases hji : j = i
      · subst hji
        rw [Function.update_same] at hj
        simp [Mutex.holdsMutex] at hj
      · rw [Function.update_noteq hji] at hj
        exact hji (hOnly j hj)
    have hsum : (∑ j, ((Function.update s.th i
        { s.th i with
            pc := Mutex.MutexPC.atLoop
            rounds := (s.th i).rounds + 1 }) j).rounds) =
        (∑ j, (s.th j).rounds) + 1 := sum_rounds_update_succ _ _ _ rfl
    have hlt : (s.th i).rounds < C :=
      hinv.active_lt i (by rw [h1]; simp) (by rw [h1]; simp)
    refine ⟨?_, ?_, ?_, ?_, ?_, ?_, ?_, ?_⟩
    · dsimp only [Mutex.updTh]
      intro j k hj hk
      exact absurd hj (hNoNew j)
    · dsimp only [Mutex.updTh]
      constructor
      · intro hl
        exact Bool.noConfusion hl
      · rintro ⟨j, hj⟩
        exact absurd hj (hNoNew j)
    · dsimp only [Mutex.updTh]
      intro j
      by_cases hji : j = i
      · subst hji
        rw [Function.update_same]
        show (s.th j).rounds + 1 ≤ C
        omega
      · rw [Function.update_noteq hji]
        exact hinv.rounds_le j
    · dsimp only [Mutex.updTh]
      intro j hj
      by_cases hji : j = i
      · subst hji
        rw [Function.update_same] at hj
        simp at hj
      · rw [Function.update_noteq hji] at hj ⊢
        exact hinv.done_rounds j hj
    · dsimp only [Mutex.updTh]
      intro j hj1 hj2
      by_cases hji : j = i
      · subst hji
        rw [Function.update_same] at hj1
        exact absurd rfl hj1
      · rw [Function.update_noteq hji] at hj1 hj2 ⊢
        exact hinv.active_lt j hj1 hj2
    · dsimp only [Mutex.updTh]
      intro j hj
      by_cases hji : j = i
      · subst hji
        rw [Function.update_same] at hj
        simp at hj
      · rw [Function.update_noteq hji] at hj
        have hji2 : j = i := hOnly j (Or.inr (Or.inl hj))
        exact absurd hji2 hji
    · dsimp only [Mutex.updTh]
      intro _
      rw [hsum]
      exact hinv.counter_rel i h1
    · dsimp only [Mutex.updTh]
      intro j hj
      by_cases hji : j = i
      · subst hji
        rw [Function.update_same] at hj
        simp at hj
      · rw [Function.update_noteq hji] at hj
        have hji2 : j = i := hOnly j (Or.inr (Or.inr hj))
        exact absurd hji2 hji

/-- Every transition of the native-OS-mutex model is also a transition
of the futex model (which merely has the extra no-op spin step). -/
theorem nativeStep_futexStep {n C : Nat} {s s' : Mutex.MutexSysState n}
    (h : Mutex.NativeStep n C s s') : Mutex.FutexStep n C s s' := by
  cases h with
  | loopEnter i h1 h2 => exact Mutex.FutexStep.loopEnter s i h1 h2
  | loopExit i h1 h2 => exact Mutex.FutexStep.loopExit s i h1 h2
  | acquireOk i h1 h2 => exact Mutex.FutexStep.acquireOk s i h1 h2
  | readStep i h1 => exact Mutex.FutexStep.readStep s i h1
  | writeStep i h1 => exact Mutex.FutexStep.writeStep s i h1
  | releaseStep i h1 => exact Mutex.FutexStep.releaseStep s i h1

theorem mutexInv_reach {n C : Nat} {s : Mutex.MutexSysState n}
    (h : Relation.ReflTransGen (Mutex.FutexStep n C) (Mutex.mutexInit n) s) :
    Mutex.MutexInv C s := by
  induction h with
  | refl => exact mutexInv_init C
  | tail _ hstep ih => exact futexStep_preserves_inv hstep ih

/-- C3: in every state reachable by interleaved executions of the N
lock-increment-unlock loops — under the futex-fast-path mutex or under
the native OS mutex — at most one thread holds the mutex, and once every
thread has finished its C iterations the shared counter equals N * C. -/
theorem kmutex_mutual_exclusion_final_count {n C : Nat}
    (s : Mutex.MutexSysState n)
    (hreach : Relation.ReflTransGen (Mutex.FutexStep n C) (Mutex.mutexInit n) s ∨
      Relation.ReflTransGen (Mutex.NativeStep n C) (Mutex.mutexInit n) s) :
    (∀ i j, Mutex.holdsMutex (s.th i) → Mutex.holdsMutex (s.th j) → i = j) ∧
    ((∀ i, (s.th i).pc = .finished) → s.counter = n * C) := by
  have hinv : Mutex.MutexInv C s := by
    cases hreach with
    | inl h => exact mutexInv_reach h
    | inr h =>
      exact mutexInv_reach (Relation.ReflTransGen.mono
        (fun _ _ hs => nativeStep_futexStep hs) h)
  refine ⟨hinv.holder_unique, ?_⟩
  intro hall
  have hnorel : ∀ i, (s.th i).pc ≠ Mutex.MutexPC.releaseLock := by
    intro i
    rw [hall i]
    simp
  have hc := hinv.counter_no_rel hnorel
  have hr : ∀ i, (s.th i).rounds = C := fun i => hinv.done_rounds i (hall i)
  rw [hc]
  calc (∑ j, (s.th j).rounds) = ∑ _j : Fin n, C :=
        Finset.sum_congr rfl fun j _ => hr j
    _ = n * C := by
        simp [Finset.sum_const, Finset.card_univ, mul_comm]

theorem kmutex_mutual_exclusion_final_count_witness :
    Mutex.mutexFinalState.counter = 1 * 0 :=
  (kmutex_mutual_exclusion_final_count Mutex.mutexFinalState
    (Or.inl (Relation.ReflTransGen.single
      (Mutex.FutexStep.loopExit (Mutex.mutexInit 1) 0 rfl (by decide))))).2
    (by decide)

end Diesel
